import Mathlib

/-!
Verification development for the real-time collaboration coordination engine
of the plotweaver-web-enhanced backend.

The Python sources are shallowly embedded as pure Lean functions:
* Python dicts become association lists (`List (K × V)`), with update-in-place
  semantics (`insertKey`) and key deletion by filtering (`eraseKey`);
* the wall clock (`time.time()` / `datetime.now`) becomes an explicit
  rational-number argument threaded through every operation;
* Python `int(...)` truncation of a float becomes `pyInt : ℚ → ℤ`;
* stateful methods return a pair of (result, new state).

Embedded modules:
* `src/src/server/bounded_collections.py` — `LRUCache`, `BoundedDict`, `BoundedSet`;
* `src/src/auth/rate_limiter.py` — `SlidingWindowRateLimiter`;
* `src/src/auth/jwt_auth.py` — `JWTAuthenticator` (the HMAC signature of a JWT
  is modelled abstractly: a token records the key and algorithm it was encoded
  with, and decoding succeeds exactly when they match the verifier's);
* `src/bff/server/main.py` — the lock / conflict HTTP endpoint bodies
  (`check_lock_conflicts`, `update_component_lock`, `resolve_conflict`);
  broadcasting over websockets is I/O and is omitted from the state model.
-/

namespace PW

/-! ## Association-list primitives (model of Python `dict`) -/

variable {K V : Type} [DecidableEq K]

/-- First value bound to `k`, as Python `d.get(k)` / `d[k]`. -/
def lookupKey (k : K) : List (K × V) → Option V
  | [] => none
  | (a, b) :: rest => if a = k then some b else lookupKey k rest

/-- `k in d` for a Python dict. -/
def hasKey (k : K) (l : List (K × V)) : Bool :=
  (lookupKey k l).isSome

/-- `del d[k]` / `d.pop(k, None)`: remove every binding of `k`. -/
def eraseKey (k : K) : List (K × V) → List (K × V)
  | [] => []
  | (a, b) :: rest => if a = k then eraseKey k rest else (a, b) :: eraseKey k rest

/-- `d[k] = v`: replace the binding in place if present, else append
(Python dicts keep at most one binding per key, so replacing the first
binding models in-place assignment). -/
def insertKey (k : K) (v : V) : List (K × V) → List (K × V)
  | [] => [(k, v)]
  | (a, b) :: rest => if a = k then (k, v) :: rest else (a, b) :: insertKey k v rest

theorem lookupKey_insertKey_self (k : K) (v : V) (l : List (K × V)) :
    lookupKey k (insertKey k v l) = some v := by
  induction l with
  | nil => simp [insertKey, lookupKey]
  | cons p rest ih =>
    obtain ⟨a, b⟩ := p
    by_cases hp : a = k
    · simp [insertKey, lookupKey, hp]
    · simpa [insertKey, lookupKey, hp] using ih

theorem lookupKey_insertKey_ne (k j : K) (v : V) (l : List (K × V)) (hkj : j ≠ k) :
    lookupKey k (insertKey j v l) = lookupKey k l := by
  induction l with
  | nil => simp [insertKey, lookupKey, hkj]
  | cons p rest ih =>
    obtain ⟨a, b⟩ := p
    by_cases hp : a = j
    · subst hp
      simp [insertKey, lookupKey, hkj]
    · by_cases hk : a = k
      · simp [insertKey, lookupKey, hp, hk, Ne.symm hkj]
      · simpa [insertKey, lookupKey, hp, hk] using ih

theorem lookupKey_eraseKey_self (k : K) (l : List (K × V)) :
    lookupKey k (eraseKey k l) = none := by
  induction l with
  | nil => simp [eraseKey, lookupKey]
  | cons p rest ih =>
    obtain ⟨a, b⟩ := p
    by_cases hp : a = k
    · simpa [eraseKey, hp] using ih
    · simpa [eraseKey, lookupKey, hp] using ih

theorem lookupKey_eraseKey_ne (k j : K) (l : List (K × V)) (hkj : j ≠ k) :
    lookupKey k (eraseKey j l) = lookupKey k l := by
  induction l with
  | nil => simp [eraseKey, lookupKey]
  | cons p rest ih =>
    obtain ⟨a, b⟩ := p
    by_cases hp : a = j
    · have hk : a ≠ k := by rw [hp]; exact hkj
      simpa [eraseKey, lookupKey, hp, hk, hkj] using ih
    · by_cases hk : a = k
      · simp [eraseKey, lookupKey, hp, hk, Ne.symm hkj]
      · simpa [eraseKey, lookupKey, hp, hk] using ih

theorem hasKey_eraseKey_self (k : K) (l : List (K × V)) :
    hasKey k (eraseKey k l) = false := by
  simp [hasKey, lookupKey_eraseKey_self]

theorem insertKey_insertKey (k : K) (v w : V) (l : List (K × V)) :
    insertKey k v (insertKey k w l) = insertKey k v l := by
  induction l with
  | nil => simp [insertKey]
  | cons p rest ih =>
    obtain ⟨a, b⟩ := p
    by_cases hp : a = k
    · simp [insertKey, hp]
    · simp [insertKey, hp, ih]

/-- Python `int(x)` on a float: truncation toward zero. -/
def pyInt (q : ℚ) : ℤ :=
  if q < 0 then ⌈q⌉ else ⌊q⌋

theorem pyInt_of_nonneg {q : ℚ} (h : 0 ≤ q) : pyInt q = ⌊q⌋ := by
  simp [pyInt, not_lt.mpr h]

theorem sub_one_lt_pyInt (q : ℚ) : q - 1 < (pyInt q : ℚ) := by
  unfold pyInt
  by_cases h : q < 0
  · simp only [h, if_true]
    have := Int.le_ceil q
    linarith
  · simp only [h, if_false]
    have := Int.lt_floor_add_one q
    linarith

/-! ## `src/src/server/bounded_collections.py` -/

/-- `LRUCache`: a capacity-bounded `OrderedDict`, first entry = least recently
used.  The list mirrors the `OrderedDict` order. -/
structure LRUCache (K V : Type) where
  max_size : Nat
  cache : List (K × V)
deriving DecidableEq

/-- `LRUCache.put`: update in place after popping the key, else evict the
oldest entry (`popitem(last=False)`) when at capacity, then append at the
most-recently-used end.  (With `max_size = 0` and an empty cache the Python
code would raise `KeyError` from `popitem`; the model drops nothing there.) -/
def LRUCache.put (c : LRUCache K V) (key : K) (value : V) : LRUCache K V :=
  if hasKey key c.cache then
    { c with cache := eraseKey key c.cache ++ [(key, value)] }
  else if c.max_size ≤ c.cache.length then
    { c with cache := c.cache.drop 1 ++ [(key, value)] }
  else
    { c with cache := c.cache ++ [(key, value)] }

/-- `BoundedDict`: dict plus optional TTL plus an access-order deque.
`ttl_seconds = None` (and, per Python truthiness, `0`) disables the TTL. -/
structure BoundedDict (K V : Type) where
  max_size : Nat
  ttl_seconds : Option Nat
  data : List (K × V)
  timestamps : List (K × ℚ)
  access_order : List K
deriving DecidableEq

/-- Python truthiness of `self.ttl_seconds`. -/
def ttlActive : Option Nat → Bool
  | none => false
  | some n => n != 0

/-- `BoundedDict._evict_oldest`. -/
def BoundedDict._evict_oldest (d : BoundedDict K V) : BoundedDict K V :=
  match d.access_order with
  | [] => d
  | oldest :: rest =>
    { d with access_order := rest
             data := eraseKey oldest d.data
             timestamps := if ttlActive d.ttl_seconds then eraseKey oldest d.timestamps
                           else d.timestamps }

/-- Fuel-indexed unfolding of `while len(self._data) >= self.max_size:
self._evict_oldest()`.  Each productive iteration pops the head of
`access_order`, so `access_order.length` steps of fuel suffice; when the
deque is empty and the dict is still over capacity the Python loop would
spin forever (unreachable from the public operations), and the model
returns the state unchanged. -/
def BoundedDict.evictGo : Nat → BoundedDict K V → BoundedDict K V
  | 0, d => d
  | n + 1, d =>
    if d.max_size ≤ d.data.length then BoundedDict.evictGo n d._evict_oldest else d

def BoundedDict.evictWhile (d : BoundedDict K V) : BoundedDict K V :=
  BoundedDict.evictGo (d.access_order.length + 1) d

/-- `BoundedDict.__setitem__`. -/
def BoundedDict.setItem (d : BoundedDict K V) (current_time : ℚ) (key : K) (value : V) :
    BoundedDict K V :=
  let d1 := if hasKey key d.data then { d with access_order := d.access_order.erase key }
            else d
  let d2 := d1.evictWhile
  { d2 with data := insertKey key value d2.data
            access_order := d2.access_order ++ [key]
            timestamps := if ttlActive d2.ttl_seconds then insertKey key current_time d2.timestamps
                          else d2.timestamps }

/-- `BoundedDict.__delitem__`. -/
def BoundedDict.delItem (d : BoundedDict K V) (key : K) : BoundedDict K V :=
  if hasKey key d.data then
    { d with data := eraseKey key d.data
             access_order := d.access_order.erase key
             timestamps := if ttlActive d.ttl_seconds then eraseKey key d.timestamps
                           else d.timestamps }
  else d

/-- `BoundedDict._cleanup_expired`: collect the keys whose age strictly
exceeds the TTL, then delete each. -/
def BoundedDict.cleanupExpired (d : BoundedDict K V) (current_time : ℚ) : BoundedDict K V :=
  if ttlActive d.ttl_seconds then
    let ttl : Nat := d.ttl_seconds.getD 0
    let expired_keys := (d.timestamps.filter (fun p => (ttl : ℚ) < current_time - p.2)).map Prod.fst
    expired_keys.foldl (fun acc k => acc.delItem k) d
  else d

/-- `BoundedDict.__getitem__`, returning `none` for Python's `KeyError`. -/
def BoundedDict.getItem (d : BoundedDict K V) (current_time : ℚ) (key : K) :
    Option V × BoundedDict K V :=
  let d1 := d.cleanupExpired current_time
  match lookupKey key d1.data with
  | none => (none, d1)
  | some v => (some v, { d1 with access_order := d1.access_order.erase key ++ [key] })

/-- `BoundedDict.__contains__`. -/
def BoundedDict.containsItem (d : BoundedDict K V) (current_time : ℚ) (key : K) :
    Bool × BoundedDict K V :=
  let d1 := d.cleanupExpired current_time
  (hasKey key d1.data, d1)

/-- `BoundedDict.__len__`. -/
def BoundedDict.lenItem (d : BoundedDict K V) (current_time : ℚ) : Nat × BoundedDict K V :=
  let d1 := d.cleanupExpired current_time
  (d1.data.length, d1)

/-- `BoundedDict.keys`. -/
def BoundedDict.keysItem (d : BoundedDict K V) (current_time : ℚ) :
    List K × BoundedDict K V :=
  let d1 := d.cleanupExpired current_time
  (d1.data.map Prod.fst, d1)

/-- Fresh `BoundedDict(max_size, ttl_seconds)`. -/
def BoundedDict.empty (max_size : Nat) (ttl_seconds : Option Nat) : BoundedDict K V :=
  { max_size := max_size, ttl_seconds := ttl_seconds, data := [], timestamps := [],
    access_order := [] }

/-- `BoundedSet`: set plus capacity plus access-order deque.  The member
list mirrors `access_order` for the operations exercised here. -/
structure BoundedSet (K : Type) where
  max_size : Nat
  data : List K
  access_order : List K
deriving DecidableEq

def BoundedSet._evict_oldest (s : BoundedSet K) : BoundedSet K :=
  match s.access_order with
  | [] => s
  | oldest :: rest =>
    { s with access_order := rest, data := s.data.filter (fun x => x ≠ oldest) }

def BoundedSet.evictGo : Nat → BoundedSet K → BoundedSet K
  | 0, s => s
  | n + 1, s =>
    if s.max_size ≤ s.data.length then BoundedSet.evictGo n s._evict_oldest else s

def BoundedSet.evictWhile (s : BoundedSet K) : BoundedSet K :=
  BoundedSet.evictGo (s.access_order.length + 1) s

/-- `BoundedSet.add`. -/
def BoundedSet.add (s : BoundedSet K) (item : K) : BoundedSet K :=
  if item ∈ s.data then
    { s with access_order := s.access_order.erase item ++ [item] }
  else
    let s1 := s.evictWhile
    { s1 with data := s1.data ++ [item], access_order := s1.access_order ++ [item] }

def BoundedSet.empty (max_size : Nat) : BoundedSet K :=
  { max_size := max_size, data := [], access_order := [] }

/-! ## `src/src/auth/rate_limiter.py` -/

structure RateLimitConfig where
  max_messages_per_minute : Nat := 60
  max_connections_per_ip : Nat := 10
  burst_allowance : Nat := 10
  cooldown_period : Nat := 300
deriving DecidableEq

def defaultRateLimitConfig : RateLimitConfig := {}

structure SlidingWindowRateLimiter where
  config : RateLimitConfig
  message_timestamps : List (String × List ℚ)
  violation_counts : List (String × Nat)
  cooldown_until : List (String × ℚ)
deriving DecidableEq

def SlidingWindowRateLimiter.init (config : RateLimitConfig) : SlidingWindowRateLimiter :=
  { config := config, message_timestamps := [], violation_counts := [], cooldown_until := [] }

/-- `f"Rate limited. Cooldown for {remaining}s"` (the literal 10s/60s penalty
messages are the same template at fixed arguments). -/
def cooldownMsg (remaining : ℤ) : String :=
  "Rate limited. Cooldown for " ++ toString remaining ++ "s"

/-- `f"Too many violations. Cooldown for {self.config.cooldown_period}s"`. -/
def violationsMsg (period : Nat) : String :=
  "Too many violations. Cooldown for " ++ toString period ++ "s"

/-- Body of `SlidingWindowRateLimiter.is_allowed` after the cooldown check:
prune the sliding window, then either record a violation with its
progressive penalty or admit the message. -/
def isAllowedCore (st : SlidingWindowRateLimiter) (current_time : ℚ) (client_id : String) :
    (Bool × Option String) × SlidingWindowRateLimiter :=
  let timestamps := (lookupKey client_id st.message_timestamps).getD []
  let pruned := timestamps.dropWhile (fun x => x < current_time - 60)
  let st1 := { st with message_timestamps := insertKey client_id pruned st.message_timestamps }
  if st1.config.max_messages_per_minute ≤ pruned.length then
    let violations := (lookupKey client_id st1.violation_counts).getD 0 + 1
    let st2 := { st1 with violation_counts := insertKey client_id violations st1.violation_counts }
    if 3 ≤ violations then
      ((false, some (violationsMsg st2.config.cooldown_period)),
       { st2 with cooldown_until :=
           insertKey client_id (current_time + (st2.config.cooldown_period : ℚ)) st2.cooldown_until })
    else if 2 ≤ violations then
      ((false, some (cooldownMsg 60)),
       { st2 with cooldown_until := insertKey client_id (current_time + 60) st2.cooldown_until })
    else
      ((false, some (cooldownMsg 10)),
       { st2 with cooldown_until := insertKey client_id (current_time + 10) st2.cooldown_until })
  else
    ((true, none),
     { st1 with message_timestamps := insertKey client_id (pruned ++ [current_time]) st1.message_timestamps })

/-- `SlidingWindowRateLimiter.is_allowed`. -/
def SlidingWindowRateLimiter.is_allowed (st : SlidingWindowRateLimiter) (current_time : ℚ)
    (client_id : String) : (Bool × Option String) × SlidingWindowRateLimiter :=
  match lookupKey client_id st.cooldown_until with
  | some cu =>
    if current_time < cu then
      ((false, some (cooldownMsg (pyInt (cu - current_time)))), st)
    else
      isAllowedCore
        { st with cooldown_until := eraseKey client_id st.cooldown_until
                  violation_counts := insertKey client_id 0 st.violation_counts }
        current_time client_id
  | none => isAllowedCore st current_time client_id

/-! ## `src/src/auth/jwt_auth.py`

The HMAC signature is abstracted: a token is its decoded payload together
with the key and algorithm it was signed with, and `jwt.decode` succeeds
exactly when the verifier's key matches and the algorithm is accepted
(tamper evidence). -/

structure JwtPayload where
  user_id : String
  username : String
  email : String
  permissions : List String
  iat : ℤ
  exp : ℤ
deriving DecidableEq

structure JwtToken where
  payload : JwtPayload
  key : String
  alg : String
deriving DecidableEq

structure UserClaims where
  user_id : String
  username : String
  email : String
  permissions : List String
  exp : ℤ
  iat : ℤ
deriving DecidableEq

structure JWTAuthenticator where
  secret_key : String
  algorithm : String
  token_expiry : ℤ
  refresh_threshold : ℤ
deriving DecidableEq

/-- `JWTAuthenticator.__init__(secret_key, algorithm="HS256")`. -/
def JWTAuthenticator.init (secret_key : String) (algorithm : String) : JWTAuthenticator :=
  { secret_key := secret_key, algorithm := algorithm, token_expiry := 3600,
    refresh_threshold := 300 }

/-- `jwt.encode(payload, key, algorithm)`. -/
def jwtEncode (payload : JwtPayload) (key : String) (alg : String) : JwtToken :=
  { payload := payload, key := key, alg := alg }

/-- `jwt.decode(token, key, algorithms)`: `none` models both
`InvalidTokenError` and a wrong-algorithm failure. -/
def jwtDecode (token : JwtToken) (key : String) (algs : List String) : Option JwtPayload :=
  if token.key = key ∧ token.alg ∈ algs then some token.payload else none

/-- `user_data` dict passed to `create_token`; `permissions` is optional
(`user_data.get("permissions", ["read", "write"])`). -/
structure UserData where
  user_id : String
  username : String
  email : String
  permissions : Option (List String)
deriving DecidableEq

/-- `JWTAuthenticator.create_token` with `now = datetime.now(UTC)`. -/
def JWTAuthenticator.create_token (auth : JWTAuthenticator) (now : ℚ) (user_data : UserData) :
    JwtToken :=
  jwtEncode
    { user_id := user_data.user_id
      username := user_data.username
      email := user_data.email
      permissions := user_data.permissions.getD ["read", "write"]
      iat := pyInt now
      exp := pyInt (now + (auth.token_expiry : ℚ)) }
    auth.secret_key auth.algorithm

/-- `JWTAuthenticator.verify_token` at wall-clock time `t`. -/
def JWTAuthenticator.verify_token (auth : JWTAuthenticator) (t : ℚ) (token : JwtToken) :
    Option UserClaims :=
  match jwtDecode token auth.secret_key [auth.algorithm] with
  | none => none
  | some payload =>
    if (payload.exp : ℚ) < t then none
    else some { user_id := payload.user_id, username := payload.username,
                email := payload.email, permissions := payload.permissions,
                exp := payload.exp, iat := payload.iat }

/-- `JWTAuthenticator.refresh_token` at wall-clock time `t`. -/
def JWTAuthenticator.refresh_token (auth : JWTAuthenticator) (t : ℚ) (old_token : JwtToken) :
    Option JwtToken :=
  match auth.verify_token t old_token with
  | none => none
  | some claims =>
    some (auth.create_token t
      { user_id := claims.user_id, username := claims.username, email := claims.email,
        permissions := some claims.permissions })

/-! ## `src/bff/server/main.py` — lock & conflict endpoint bodies

`datetime` values become rationals; websocket broadcasting is I/O and does
not affect the lock state, so it is omitted.  `Dict[str, Any]` payload
fields of conflicts are modelled as opaque string/string association
lists. -/

structure ComponentLock where
  id : String
  componentId : String
  level : String
  type : String
  reason : String
  lockedBy : String
  lockedAt : ℚ
  sharedWith : List String
  canOverride : Bool
deriving DecidableEq

structure LockConflict where
  id : String
  componentId : String
  type : String
  description : String
  currentState : List (String × String)
  conflictingState : List (String × String)
  priority : String
  affectedUsers : List String
  createdAt : ℚ
deriving DecidableEq

structure AuditEntry where
  action : String
  componentId : String
  lock : ComponentLock
  timestamp : ℚ
  user : String
deriving DecidableEq

/-- One entry of the `conflicts` list built by `check_lock_conflicts`. -/
structure ConflictReport where
  component_id : String
  conflict_type : String
  existing_lock : ComponentLock
  can_override : Bool
deriving DecidableEq

/-- `check_lock_conflicts(project_id, request)`: read-only walk over the
requested component ids; returns `(conflicts, can_proceed)`. -/
def check_lock_conflicts (project_locks : List (String × List (String × ComponentLock)))
    (project_id : String) (components : List String) : List ConflictReport × Bool :=
  let plocks := (lookupKey project_id project_locks).getD []
  let conflicts := components.filterMap (fun component_id =>
    (lookupKey component_id plocks).map (fun existing_lock =>
      { component_id := component_id
        conflict_type := "already_locked"
        existing_lock := existing_lock
        can_override := existing_lock.canOverride && (existing_lock.level != "frozen") }))
  (conflicts, conflicts.length == 0)

/-- `update_component_lock(project_id, component_id, lock)`: unconditionally
stores the lock, appends an audit entry, and reports `"updated"`. -/
def update_component_lock (project_locks : List (String × List (String × ComponentLock)))
    (lock_history : List (String × List AuditEntry)) (project_id component_id : String)
    (lock : ComponentLock) (now : ℚ) :
    List (String × List (String × ComponentLock)) × List (String × List AuditEntry) × String :=
  let pl0 := if hasKey project_id project_locks then project_locks
             else project_locks ++ [(project_id, [])]
  let pl1 := insertKey project_id
    (insertKey component_id lock ((lookupKey project_id pl0).getD [])) pl0
  let lh0 := if hasKey project_id lock_history then lock_history
             else lock_history ++ [(project_id, [])]
  let entry : AuditEntry :=
    { action := "lock_updated", componentId := component_id, lock := lock,
      timestamp := now, user := lock.lockedBy }
  let lh1 := insertKey project_id (((lookupKey project_id lh0).getD []) ++ [entry]) lh0
  (pl1, lh1, "updated")

/-- `resolve_conflict(project_id, conflict_id, resolution)`: filters the
named id out of the project's conflict list when the project is known, and
always reports `"resolved"`. -/
def resolve_conflict (project_conflicts : List (String × List LockConflict))
    (project_id conflict_id : String) : List (String × List LockConflict) × String :=
  match lookupKey project_id project_conflicts with
  | some conflicts =>
    (insertKey project_id (conflicts.filter (fun c => c.id != conflict_id)) project_conflicts,
     "resolved")
  | none => (project_conflicts, "resolved")

/-! ## `src/src/server/main.py` — connection registry constants -/

/-- `MAX_CONNECTIONS` from `src/src/server/constants.py`. -/
def MAX_CONNECTIONS : Nat := 1000

/-- TTL passed to the `active_connections` bounded dict in
`EnhancedConnectionManager.__init__`. -/
def registryTTL : Nat := 3600

/-- `self.active_connections = BoundedDict(MAX_CONNECTIONS, ttl_seconds=3600)`. -/
def activeConnectionsInit (V : Type) : BoundedDict String V :=
  BoundedDict.empty MAX_CONNECTIONS (some registryTTL)

/-- A read-only registry access: `__getitem__` (used by
`send_personal_message` and `broadcast_to_project`), `__contains__`,
`__len__` or `keys`.  None of them writes a timestamp. -/
inductive RegistryRead (K : Type) where
  | getOp (k : K)
  | containsOp (k : K)
  | lenOp
  | keysOp
deriving DecidableEq

def applyRead (d : BoundedDict K V) (t : ℚ) : RegistryRead K → BoundedDict K V
  | .getOp k => (d.getItem t k).2
  | .containsOp k => (d.containsItem t k).2
  | .lenOp => (d.lenItem t).2
  | .keysOp => (d.keysItem t).2

/-- Apply a sequence of timed read operations, oldest first. -/
def applyReads (d : BoundedDict K V) : List (RegistryRead K × ℚ) → BoundedDict K V
  | [] => d
  | (op, t) :: rest => applyReads (applyRead d t op) rest

/-! ## Claim C1 — `check_lock_conflicts` -/

/-- A soft, overridable lock held by `alice` on component `scene-1`. -/
def c1SoftLock : ComponentLock :=
  { id := "lock-1", componentId := "scene-1", level := "soft", type := "personal",
    reason := "draft edit", lockedBy := "alice", lockedAt := 0, sharedWith := [],
    canOverride := true }

/-- C1: the claim states `canProceed` is true iff every reported conflict is
override-eligible.  The code computes `can_proceed = len(conflicts) == 0`
instead: requesting `["scene-1", "scene-2"]` against a project where only
`scene-1` holds a soft overridable lock reports exactly that one conflict
with `can_override = true`, yet returns `can_proceed = false` — contradicting
the claim (and the repository's own integration test, which asserts
`can_proceed is True` in exactly this situation). -/
theorem C1_can_proceed_ignores_overridability :
    check_lock_conflicts [("p1", [("scene-1", c1SoftLock)])] "p1" ["scene-1", "scene-2"] =
      ([{ component_id := "scene-1", conflict_type := "already_locked",
          existing_lock := c1SoftLock, can_override := true }], false) := by
  rfl

/-! ## Claim C2 — `update_component_lock` -/

/-- C2 (amended): `update_component_lock` performs no ownership or override
check at all — every set-lock request unconditionally replaces whatever lock
was stored for the (project, component) pair and reports `"updated"`;
no request is ever rejected. -/
theorem C2_update_lock_always_replaces
    (project_locks : List (String × List (String × ComponentLock)))
    (lock_history : List (String × List AuditEntry)) (project_id component_id : String)
    (lock : ComponentLock) (now : ℚ) :
    lookupKey component_id
        ((lookupKey project_id
          (update_component_lock project_locks lock_history project_id component_id lock now).1).getD [])
      = some lock
    ∧ (update_component_lock project_locks lock_history project_id component_id lock now).2.2
      = "updated" := by
  unfold update_component_lock
  refine ⟨?_, rfl⟩
  simp only [lookupKey_insertKey_self, Option.getD_some]

/-- The non-overridable hard lock held by `alice` in the C2 counterexample. -/
def c2AliceLock : ComponentLock :=
  { id := "lock-a", componentId := "scene-1", level := "hard", type := "personal",
    reason := "critical edit", lockedBy := "alice", lockedAt := 0, sharedWith := [],
    canOverride := false }

/-- `bob`'s competing request in the C2 counterexample. -/
def c2BobLock : ComponentLock :=
  { id := "lock-b", componentId := "scene-1", level := "soft", type := "personal",
    reason := "override attempt", lockedBy := "bob", lockedAt := 5, sharedWith := [],
    canOverride := true }

/-- C2 counterexample: the existing lock has `canOverride = False` and the
requester (`bob`) is not the owner (`alice`), so the claim demands rejection —
but the code replaces the lock and reports `"updated"`. -/
theorem C2_counterexample_no_rejection :
    c2AliceLock.canOverride = false ∧ c2BobLock.lockedBy ≠ c2AliceLock.lockedBy ∧
    (update_component_lock [("p1", [("scene-1", c2AliceLock)])] [] "p1" "scene-1" c2BobLock 5).2.2
      = "updated" ∧
    lookupKey "scene-1"
        ((lookupKey "p1"
          (update_component_lock [("p1", [("scene-1", c2AliceLock)])] [] "p1" "scene-1" c2BobLock 5).1).getD [])
      = some c2BobLock := by
  refine ⟨rfl, by decide, rfl, rfl⟩

/-! ## Claim C8 — `resolve_conflict` -/

/-- C8 (amended): `resolve_conflict` always reports success (`"resolved"`),
even when the conflict id is not in the project's outstanding set (a silent
no-op); when the project is known it removes exactly the conflicts carrying
the given id and keeps all others, and an unknown project leaves the state
untouched. -/
theorem C8_resolve_conflict_always_succeeds
    (project_conflicts : List (String × List LockConflict)) (project_id conflict_id : String) :
    (resolve_conflict project_conflicts project_id conflict_id).2 = "resolved" ∧
    (∀ conflicts, lookupKey project_id project_conflicts = some conflicts →
      lookupKey project_id (resolve_conflict project_conflicts project_id conflict_id).1 =
        some (conflicts.filter (fun c => c.id != conflict_id))) ∧
    (lookupKey project_id project_conflicts = none →
      (resolve_conflict project_conflicts project_id conflict_id).1 = project_conflicts) := by
  unfold resolve_conflict
  cases h : lookupKey project_id project_conflicts with
  | none =>
    refine ⟨rfl, ?_, fun _ => rfl⟩
    intro conflicts hc
    simp at hc
  | some conflicts₀ =>
    refine ⟨rfl, ?_, ?_⟩
    · intro conflicts hc
      obtain rfl := Option.some.inj hc
      simp only [lookupKey_insertKey_self]
    · intro hn
      simp at hn

/-- An outstanding conflict used by the C8 witness and counterexample. -/
def c8Conflict : LockConflict :=
  { id := "cf1", componentId := "scene-1", type := "lock_conflict",
    description := "competing edits", currentState := [], conflictingState := [],
    priority := "high", affectedUsers := ["alice", "bob"], createdAt := 0 }

/-- C8 witness: resolving the existing conflict `cf1` removes exactly it. -/
theorem C8_resolve_conflict_witness :
    lookupKey "p1" [("p1", [c8Conflict])] = some [c8Conflict] ∧
    lookupKey "p1" (resolve_conflict [("p1", [c8Conflict])] "p1" "cf1").1 = some [] := by
  refine ⟨rfl, ?_⟩
  have h := (C8_resolve_conflict_always_succeeds [("p1", [c8Conflict])] "p1" "cf1").2.1
    [c8Conflict] rfl
  simpa using h

/-- C8 counterexample: resolving the id `"missing"`, which is not in the
outstanding set, reports success and changes nothing — the claim demands a
not-found error instead. -/
theorem C8_counterexample_missing_id_succeeds :
    (resolve_conflict [("p1", [c8Conflict])] "p1" "missing").2 = "resolved" ∧
    (resolve_conflict [("p1", [c8Conflict])] "p1" "missing").1 = [("p1", [c8Conflict])] := by
  exact ⟨rfl, rfl⟩

/-! ## Claim C5 — update-in-place on a full bounded map -/

def c5Dict : BoundedDict String Nat := BoundedDict.empty 2 none

/-- C5: the claim states a put on an existing key never evicts, even at
capacity, for both container variants.  `LRUCache.put` satisfies this, but
`BoundedDict.__setitem__` removes the existing key from the access order
*before* the capacity loop, so at capacity the loop fires and evicts the
oldest *other* entry: updating `"a"` in the full dict `{a, b}` silently
evicts `"b"` and shrinks the map to one entry. -/
theorem C5_boundeddict_update_at_capacity_evicts :
    (((c5Dict.setItem 0 "a" 1).setItem 0 "b" 2).setItem 0 "a" 9).data = [("a", 9)] ∧
    (((c5Dict.setItem 0 "a" 1).setItem 0 "b" 2).setItem 0 "a" 9).data.length = 1 ∧
    ((((LRUCache.mk 2 [] : LRUCache String Nat).put "a" 1).put "b" 2).put "a" 9).cache
      = [("b", 2), ("a", 9)] := by
  exact ⟨rfl, rfl, rfl⟩

/-! ## Claim C9 — `JWTAuthenticator.refresh_token` -/

/-- C9: refresh returns `none` exactly when the old token no longer verifies
(so an expired token is never refreshed), and otherwise returns a token that
verifies and carries the same subject id, display name, email and permission
list, with a fresh expiry of `now + token_expiry`.  The constructor always
sets `token_expiry = 3600`, which the hypothesis records. -/
theorem C9_refresh_token_same_claims_fresh_expiry (auth : JWTAuthenticator) (t : ℚ)
    (old_token : JwtToken) (hexp : auth.token_expiry = 3600) :
    (auth.refresh_token t old_token = none ↔ auth.verify_token t old_token = none) ∧
    (∀ claims, auth.verify_token t old_token = some claims →
      ∃ new_token, auth.refresh_token t old_token = some new_token ∧
        ∃ nc, auth.verify_token t new_token = some nc ∧
          nc.user_id = claims.user_id ∧ nc.username = claims.username ∧
          nc.email = claims.email ∧ nc.permissions = claims.permissions ∧
          nc.exp = pyInt (t + 3600)) := by
  unfold JWTAuthenticator.refresh_token
  cases h : auth.verify_token t old_token with
  | none =>
    refine ⟨by simp, ?_⟩
    intro claims hc
    simp at hc
  | some claims₀ =>
    refine ⟨by simp, ?_⟩
    intro claims hc
    obtain rfl := Option.some.inj hc
    refine ⟨_, rfl, ?_⟩
    unfold JWTAuthenticator.verify_token JWTAuthenticator.create_token jwtEncode jwtDecode
    have hnotlt : ¬ ((pyInt (t + (auth.token_expiry : ℚ)) : ℚ) < t) := by
      have h1 := sub_one_lt_pyInt (t + (auth.token_expiry : ℚ))
      rw [hexp] at h1 ⊢
      push_neg
      norm_num at h1 ⊢
      linarith
    simp only [List.mem_singleton, and_true, if_pos rfl, if_true, hnotlt, if_false,
      and_self, true_and, if_neg hnotlt]
    refine ⟨_, rfl, rfl, rfl, rfl, by simp, by rw [hexp]; norm_cast⟩

def c9Auth : JWTAuthenticator := JWTAuthenticator.init "secret" "HS256"

def c9Token : JwtToken :=
  c9Auth.create_token 0
    { user_id := "u1", username := "nina", email := "n@example.com",
      permissions := some ["read"] }

/-- C9 witness at a concrete authenticator, token and time. -/
theorem C9_refresh_token_witness :
    c9Auth.token_expiry = 3600 ∧
    (c9Auth.refresh_token 10 c9Token = none ↔ c9Auth.verify_token 10 c9Token = none) ∧
    (c9Auth.refresh_token 10 c9Token).isSome = true := by
  refine ⟨rfl, (C9_refresh_token_same_claims_fresh_expiry c9Auth 10 c9Token rfl).1, ?_⟩
  with_unfolding_all rfl

/-! ## Claim C4 — progressive rate-limit penalties -/

/-- Cooldown length applied by the violation numbered `v` (counting the
current one): 10s for the 1st, 60s for the 2nd, the configured cooldown
period for the 3rd and later. -/
def penaltySeconds (cfg : RateLimitConfig) (v : Nat) : ℚ :=
  if 3 ≤ v then (cfg.cooldown_period : ℚ) else if 2 ≤ v then 60 else 10

/-- Failure message returned with the violation numbered `v`. -/
def penaltyMsg (cfg : RateLimitConfig) (v : Nat) : String :=
  if 3 ≤ v then violationsMsg cfg.cooldown_period
  else if 2 ≤ v then cooldownMsg 60
  else cooldownMsg 10

/-- Evaluation of `isAllowedCore` when the pruned window is still at or over
the configured maximum: the check fails and the progressive penalty fires. -/
theorem isAllowedCore_fail (st : SlidingWindowRateLimiter) (t : ℚ) (cid : String)
    (hge : st.config.max_messages_per_minute ≤
      (((lookupKey cid st.message_timestamps).getD []).dropWhile (fun x => x < t - 60)).length) :
    isAllowedCore st t cid =
      ((false, some (penaltyMsg st.config ((lookupKey cid st.violation_counts).getD 0 + 1))),
       { config := st.config
         message_timestamps := insertKey cid
           (((lookupKey cid st.message_timestamps).getD []).dropWhile (fun x => x < t - 60))
           st.message_timestamps
         violation_counts := insertKey cid ((lookupKey cid st.violation_counts).getD 0 + 1)
           st.violation_counts
         cooldown_until := insertKey cid
           (t + penaltySeconds st.config ((lookupKey cid st.violation_counts).getD 0 + 1))
           st.cooldown_until }) := by
  unfold isAllowedCore
  dsimp only
  rw [if_pos hge]
  by_cases h3 : 3 ≤ (lookupKey cid st.violation_counts).getD 0 + 1
  · simp [penaltyMsg, penaltySeconds, h3]
  · by_cases h2 : 2 ≤ (lookupKey cid st.violation_counts).getD 0 + 1
    · simp [penaltyMsg, penaltySeconds, h3, h2]
    · simp [penaltyMsg, penaltySeconds, h3, h2]

/-- Evaluation of `isAllowedCore` when the pruned window is under the
configured maximum: the message is admitted and its timestamp recorded. -/
theorem isAllowedCore_ok (st : SlidingWindowRateLimiter) (t : ℚ) (cid : String)
    (hlt : (((lookupKey cid st.message_timestamps).getD []).dropWhile (fun x => x < t - 60)).length <
      st.config.max_messages_per_minute) :
    isAllowedCore st t cid =
      ((true, none),
       { config := st.config
         message_timestamps := insertKey cid
           ((((lookupKey cid st.message_timestamps).getD []).dropWhile (fun x => x < t - 60)) ++ [t])
           st.message_timestamps
         violation_counts := st.violation_counts
         cooldown_until := st.cooldown_until }) := by
  unfold isAllowedCore
  dsimp only
  rw [if_neg (not_le.mpr hlt)]
  simp [insertKey_insertKey]

/-- C4: with no active cooldown, a check whose pruned 60-second window still
holds at least the configured maximum fails and applies the progressive
penalty determined by the client's new violation count `v` (10s / 60s / the
configured period, default 300s), and while a cooldown is active every
check fails immediately with the message carrying the remaining seconds. -/
theorem C4_progressive_penalties (st : SlidingWindowRateLimiter) (t : ℚ) (cid : String) :
    (∀ cu, lookupKey cid st.cooldown_until = some cu → t < cu →
      st.is_allowed t cid = ((false, some (cooldownMsg (pyInt (cu - t)))), st)) ∧
    (lookupKey cid st.cooldown_until = none →
      ∀ pruned,
        pruned = ((lookupKey cid st.message_timestamps).getD []).dropWhile (fun x => x < t - 60) →
        st.config.max_messages_per_minute ≤ pruned.length →
        ∀ v, v = (lookupKey cid st.violation_counts).getD 0 + 1 →
          (st.is_allowed t cid).1.1 = false ∧
          (st.is_allowed t cid).1.2 = some (penaltyMsg st.config v) ∧
          lookupKey cid (st.is_allowed t cid).2.violation_counts = some v ∧
          lookupKey cid (st.is_allowed t cid).2.cooldown_until
            = some (t + penaltySeconds st.config v)) ∧
    defaultRateLimitConfig.cooldown_period = 300 := by
  refine ⟨?_, ?_, rfl⟩
  · intro cu hcu hlt
    unfold SlidingWindowRateLimiter.is_allowed
    rw [hcu]
    simp [hlt]
  · intro hnone pruned hpr hge v hv
    subst hpr
    subst hv
    unfold SlidingWindowRateLimiter.is_allowed
    rw [hnone, isAllowedCore_fail st t cid hge]
    simp [lookupKey_insertKey_self]

/-- Limiter state with an active cooldown until time 100 for client `c`. -/
def c4CooldownState : SlidingWindowRateLimiter :=
  { config := defaultRateLimitConfig, message_timestamps := [], violation_counts := [],
    cooldown_until := [("c", 100)] }

/-- Limiter state for client `c`: cap of 1 message/minute, window `[0]`. -/
def c4WindowState : SlidingWindowRateLimiter :=
  { config := { max_messages_per_minute := 1 }, message_timestamps := [("c", [0])],
    violation_counts := [], cooldown_until := [] }

/-- C4 witness: a check at t=50 under a cooldown until 100 fails with 50
remaining seconds, and a first violation at t=1 sets a 10-second cooldown. -/
theorem C4_progressive_penalties_witness :
    c4CooldownState.is_allowed 50 "c"
      = ((false, some (cooldownMsg (pyInt (100 - 50)))), c4CooldownState) ∧
    (c4WindowState.is_allowed 1 "c").1.1 = false ∧
    (c4WindowState.is_allowed 1 "c").1.2 = some (penaltyMsg c4WindowState.config 1) ∧
    lookupKey "c" (c4WindowState.is_allowed 1 "c").2.cooldown_until
      = some (1 + penaltySeconds c4WindowState.config 1) := by
  have h1 := (C4_progressive_penalties c4CooldownState 50 "c").1 100 rfl (by norm_num)
  have h2 := (C4_progressive_penalties c4WindowState 1 "c").2.1 rfl
    ([0].dropWhile (fun x => x < (1 : ℚ) - 60))
    rfl (by with_unfolding_all decide) 1 rfl
  exact ⟨h1, h2.1, h2.2.1, h2.2.2.2⟩

/-! ## Claim C3 — cooldown behaviour of the message-rate limiter -/

/-- C3 (amended): while a cooldown is active every check fails with a
monotonically non-increasing remaining value and leaves the limiter state
unchanged.  The first check at or after the cooldown's expiry deletes the
cooldown and resets the violation count to zero *before* re-evaluating the
sliding window; it succeeds iff the pruned window then holds fewer than the
configured maximum of messages (on success the violation count stays zero
and no cooldown is active — but when the window is still full the check
fails again and a fresh penalty starts from violation count one). -/
theorem C3_cooldown_monotone_and_reset (st : SlidingWindowRateLimiter) (cid : String)
    (cu t1 t2 t3 : ℚ) (hcu : lookupKey cid st.cooldown_until = some cu) :
    (t1 ≤ t2 → t2 < cu →
      st.is_allowed t1 cid = ((false, some (cooldownMsg (pyInt (cu - t1)))), st) ∧
      st.is_allowed t2 cid = ((false, some (cooldownMsg (pyInt (cu - t2)))), st) ∧
      pyInt (cu - t2) ≤ pyInt (cu - t1)) ∧
    (cu ≤ t3 →
      ((st.is_allowed t3 cid).1.1 =
        decide ((((lookupKey cid st.message_timestamps).getD []).dropWhile
            (fun x => x < t3 - 60)).length < st.config.max_messages_per_minute)) ∧
      ((st.is_allowed t3 cid).1.1 = true →
        lookupKey cid (st.is_allowed t3 cid).2.violation_counts = some 0 ∧
        lookupKey cid (st.is_allowed t3 cid).2.cooldown_until = none)) := by
  constructor
  · intro ht12 ht2
    have ht1 : t1 < cu := lt_of_le_of_lt ht12 ht2
    refine ⟨?_, ?_, ?_⟩
    · unfold SlidingWindowRateLimiter.is_allowed
      rw [hcu]
      simp [ht1]
    · unfold SlidingWindowRateLimiter.is_allowed
      rw [hcu]
      simp [ht2]
    · have hn2 : (0:ℚ) ≤ cu - t2 := by linarith
      have hn1 : (0:ℚ) ≤ cu - t1 := by linarith
      rw [pyInt_of_nonneg hn2, pyInt_of_nonneg hn1]
      exact Int.floor_mono (by linarith)
  · intro hexp
    unfold SlidingWindowRateLimiter.is_allowed
    rw [hcu]
    dsimp only
    rw [if_neg (not_lt.mpr hexp)]
    by_cases hw : (((lookupKey cid st.message_timestamps).getD []).dropWhile
        (fun x => x < t3 - 60)).length < st.config.max_messages_per_minute
    · have hok := isAllowedCore_ok
        { config := st.config, message_timestamps := st.message_timestamps,
          violation_counts := insertKey cid 0 st.violation_counts,
          cooldown_until := eraseKey cid st.cooldown_until } t3 cid (by exact hw)
      rw [hok]
      refine ⟨by simp [hw], fun _ => ⟨?_, ?_⟩⟩
      · exact lookupKey_insertKey_self cid 0 st.violation_counts
      · exact lookupKey_eraseKey_self cid st.cooldown_until
    · have hfail := isAllowedCore_fail
        { config := st.config, message_timestamps := st.message_timestamps,
          violation_counts := insertKey cid 0 st.violation_counts,
          cooldown_until := eraseKey cid st.cooldown_until } t3 cid (by exact not_lt.mp hw)
      rw [hfail]
      refine ⟨by simp [hw], ?_⟩
      intro hcon
      simp at hcon

def c3Config : RateLimitConfig := { max_messages_per_minute := 1 }

def c3State0 : SlidingWindowRateLimiter := SlidingWindowRateLimiter.init c3Config

def c3State1 : SlidingWindowRateLimiter := (c3State0.is_allowed 0 "c").2

def c3State2 : SlidingWindowRateLimiter := (c3State1.is_allowed 1 "c").2

/-- C3 counterexample: with a cap of 1 message/minute, the client sends one
message at t=0, violates at t=1 (10-second cooldown until t=11), and the
first check after expiry, at t=12, does NOT succeed — the lone window
timestamp 0 is still inside the 60-second window, so the check fails again
and the violation count ends at one, not zero.  The claim says the first
check after cooldown expiry succeeds and resets the count to zero. -/
theorem C3_counterexample_first_check_after_expiry_fails :
    (c3State0.is_allowed 0 "c").1.1 = true ∧
    (c3State1.is_allowed 1 "c").1.1 = false ∧
    lookupKey "c" c3State2.cooldown_until = some 11 ∧
    (c3State2.is_allowed 12 "c").1.1 = false ∧
    lookupKey "c" (c3State2.is_allowed 12 "c").2.violation_counts = some 1 := by
  with_unfolding_all decide

/-- Limiter state used by the C3 witness: a cooldown until t=10, one old
window timestamp and a prior violation count of 2. -/
def c3WitnessState : SlidingWindowRateLimiter :=
  { config := defaultRateLimitConfig, message_timestamps := [("c", [0])],
    violation_counts := [("c", 2)], cooldown_until := [("c", 10)] }

/-- C3 witness: checks at t=3 and t=5 inside the cooldown fail with
non-increasing remaining values and unchanged state; the first check after
expiry (t=12) succeeds with the violation count reset to zero. -/
theorem C3_cooldown_witness :
    c3WitnessState.is_allowed 3 "c"
      = ((false, some (cooldownMsg (pyInt ((10:ℚ) - 3)))), c3WitnessState) ∧
    pyInt ((10:ℚ) - 5) ≤ pyInt ((10:ℚ) - 3) ∧
    lookupKey "c" (c3WitnessState.is_allowed 12 "c").2.violation_counts = some 0 ∧
    lookupKey "c" (c3WitnessState.is_allowed 12 "c").2.cooldown_until = none := by
  have h := C3_cooldown_monotone_and_reset c3WitnessState "c" 10 3 5 12 rfl
  have h1 := h.1 (by norm_num) (by norm_num)
  have h2 := h.2 (by norm_num)
  have hT : (c3WitnessState.is_allowed 12 "c").1.1 = true := by
    rw [h2.1]
    with_unfolding_all decide
  exact ⟨h1.1, h1.2.2, (h2.2 hT).1, (h2.2 hT).2⟩

/-! ## TTL infrastructure for claims C7 and C10 -/

theorem hasKey_insertKey_self (k : K) (v : V) (l : List (K × V)) :
    hasKey k (insertKey k v l) = true := by
  simp [hasKey, lookupKey_insertKey_self]

theorem lookupKey_of_hasKey_false {k : K} {l : List (K × V)} (h : hasKey k l = false) :
    lookupKey k l = none := by
  simpa [hasKey] using h

theorem lookupKey_mem {k : K} {v : V} {l : List (K × V)} (h : lookupKey k l = some v) :
    (k, v) ∈ l := by
  induction l with
  | nil => simp [lookupKey] at h
  | cons p rest ih =>
    obtain ⟨a, b⟩ := p
    by_cases hp : a = k
    · subst hp
      simp [lookupKey] at h
      simp [h]
    · simp [lookupKey, hp] at h
      exact List.mem_cons_of_mem _ (ih h)

theorem mem_map_fst_of_hasKey {k : K} {l : List (K × V)} (h : hasKey k l = true) :
    k ∈ l.map Prod.fst := by
  unfold hasKey at h
  obtain ⟨v, hv⟩ := Option.isSome_iff_exists.mp h
  exact List.mem_map.mpr ⟨(k, v), lookupKey_mem hv, rfl⟩

theorem hasKey_of_mem_map_fst {k : K} {l : List (K × V)} (h : k ∈ l.map Prod.fst) :
    hasKey k l = true := by
  induction l with
  | nil => simp at h
  | cons p rest ih =>
    obtain ⟨a, b⟩ := p
    by_cases hp : a = k
    · simp [hasKey, lookupKey, hp]
    · rw [List.map_cons, List.mem_cons] at h
      rcases h with h1 | h2
      · exact absurd h1.symm hp
      · simpa [hasKey, lookupKey, hp] using ih h2

theorem hasKey_eraseKey_false_of_false {k j : K} {l : List (K × V)}
    (h : hasKey k l = false) : hasKey k (eraseKey j l) = false := by
  by_cases hkj : j = k
  · subst hkj
    exact hasKey_eraseKey_self j l
  · simpa [hasKey, lookupKey_eraseKey_ne k j l hkj] using h

/-- `delItem` never resurrects an absent key. -/
theorem hasKey_delItem_false_of_false {d : BoundedDict K V} {k j : K}
    (h : hasKey k d.data = false) : hasKey k (d.delItem j).data = false := by
  unfold BoundedDict.delItem
  by_cases hj : hasKey j d.data
  · simpa [hj] using hasKey_eraseKey_false_of_false h
  · simpa [hj] using h

theorem hasKey_delItem_self (d : BoundedDict K V) (k : K) :
    hasKey k (d.delItem k).data = false := by
  unfold BoundedDict.delItem
  by_cases hk : hasKey k d.data
  · simpa [hk] using hasKey_eraseKey_self k d.data
  · simp only [Bool.not_eq_true] at hk
    simp [hk]

theorem delItem_fields (d : BoundedDict K V) (j : K) :
    (d.delItem j).ttl_seconds = d.ttl_seconds ∧ (d.delItem j).max_size = d.max_size := by
  unfold BoundedDict.delItem
  by_cases hj : hasKey j d.data <;> simp [hj]

/-- A key absent from the data stays absent under any sequence of deletes. -/
theorem foldl_delItem_false (k : K) :
    ∀ (js : List K) (d : BoundedDict K V), hasKey k d.data = false →
      hasKey k (js.foldl (fun acc j => acc.delItem j) d).data = false := by
  intro js
  induction js with
  | nil => intro d h; simpa using h
  | cons j rest ih =>
    intro d h
    simp only [List.foldl_cons]
    exact ih _ (hasKey_delItem_false_of_false h)

/-- Folding `delItem` over a list containing `k` removes `k` from the data. -/
theorem foldl_delItem_not_hasKey {k : K} :
    ∀ (js : List K) (d : BoundedDict K V), k ∈ js →
      hasKey k (js.foldl (fun acc j => acc.delItem j) d).data = false := by
  intro js
  induction js with
  | nil => intro d h; simp at h
  | cons j rest ih =>
    intro d h
    simp only [List.foldl_cons]
    by_cases hjk : j = k
    · subst hjk
      exact foldl_delItem_false j rest _ (hasKey_delItem_self d j)
    · rcases List.mem_cons.mp h with h1 | h2
      · exact absurd h1.symm hjk
      · exact ih _ h2

theorem delItem_lookup_ne {d : BoundedDict K V} {k j : K} (hkj : j ≠ k) :
    lookupKey k (d.delItem j).data = lookupKey k d.data ∧
    lookupKey k (d.delItem j).timestamps = lookupKey k d.timestamps := by
  unfold BoundedDict.delItem
  by_cases hj : hasKey j d.data
  · refine ⟨by simp [hj, lookupKey_eraseKey_ne k j _ hkj], ?_⟩
    by_cases ht : ttlActive d.ttl_seconds <;>
      simp [hj, ht, lookupKey_eraseKey_ne k j _ hkj]
  · simp [hj]

/-- The key `k` carries registration timestamp `tk` whenever it is present. -/
def keyStamped (k : K) (tk : ℚ) (d : BoundedDict K V) : Prop :=
  hasKey k d.data = true → lookupKey k d.timestamps = some tk

theorem keyStamped_delItem {k : K} {tk : ℚ} {d : BoundedDict K V} (j : K)
    (h : keyStamped k tk d) : keyStamped k tk (d.delItem j) := by
  by_cases hkj : j = k
  · subst hkj
    intro hk
    rw [hasKey_delItem_self d j] at hk
    cases hk
  · intro hk
    obtain ⟨hd, hts⟩ := delItem_lookup_ne (d := d) hkj
    rw [hts]
    apply h
    unfold hasKey at hk ⊢
    rw [hd] at hk
    exact hk

theorem keyStamped_foldl_delItem {k : K} {tk : ℚ} :
    ∀ (js : List K) (d : BoundedDict K V), keyStamped k tk d →
      keyStamped k tk (js.foldl (fun acc j => acc.delItem j) d) := by
  intro js
  induction js with
  | nil => intro d h; exact h
  | cons j rest ih =>
    intro d h
    simp only [List.foldl_cons]
    exact ih _ (keyStamped_delItem j h)

theorem keyStamped_cleanup {k : K} {tk : ℚ} (d : BoundedDict K V) (tr : ℚ)
    (h : keyStamped k tk d) : keyStamped k tk (d.cleanupExpired tr) := by
  unfold BoundedDict.cleanupExpired
  by_cases ht : ttlActive d.ttl_seconds
  · simp only [ht, if_true]
    exact keyStamped_foldl_delItem _ _ h
  · simpa [ht] using h

theorem foldl_delItem_fields :
    ∀ (js : List K) (d : BoundedDict K V),
      (js.foldl (fun acc j => acc.delItem j) d).ttl_seconds = d.ttl_seconds ∧
      (js.foldl (fun acc j => acc.delItem j) d).max_size = d.max_size := by
  intro js
  induction js with
  | nil => intro d; exact ⟨rfl, rfl⟩
  | cons j rest ih =>
    intro d
    simp only [List.foldl_cons]
    obtain ⟨h1, h2⟩ := ih (d.delItem j)
    obtain ⟨h3, h4⟩ := delItem_fields d j
    exact ⟨h1.trans h3, h2.trans h4⟩

theorem cleanupExpired_fields (d : BoundedDict K V) (tr : ℚ) :
    (d.cleanupExpired tr).ttl_seconds = d.ttl_seconds ∧
    (d.cleanupExpired tr).max_size = d.max_size := by
  unfold BoundedDict.cleanupExpired
  by_cases ht : ttlActive d.ttl_seconds
  · simp only [ht, if_true]
    exact foldl_delItem_fields _ _
  · simp [ht]

theorem cleanup_removes_expired {d : BoundedDict K V} {k : K} {ts : ℚ} {ttl : Nat} (tr : ℚ)
    (httl : d.ttl_seconds = some ttl) (hne : ttl ≠ 0)
    (hts : lookupKey k d.timestamps = some ts) (hexp : (ttl : ℚ) < tr - ts) :
    hasKey k (d.cleanupExpired tr).data = false := by
  unfold BoundedDict.cleanupExpired
  have hact : ttlActive d.ttl_seconds = true := by simp [ttlActive, httl, hne]
  rw [hact]
  simp only [if_true]
  apply foldl_delItem_not_hasKey
  refine List.mem_map.mpr ⟨(k, ts), ?_, rfl⟩
  refine List.mem_filter.mpr ⟨lookupKey_mem hts, ?_⟩
  rw [httl]
  simpa using hexp

theorem cleanup_keeps_false {d : BoundedDict K V} {k : K} (tr : ℚ)
    (h : hasKey k d.data = false) : hasKey k (d.cleanupExpired tr).data = false := by
  unfold BoundedDict.cleanupExpired
  by_cases ht : ttlActive d.ttl_seconds
  · simp only [ht, if_true]
    exact foldl_delItem_false _ _ _ h
  · simpa [ht] using h

theorem getItem_state (d : BoundedDict K V) (tr : ℚ) (k : K) :
    (d.getItem tr k).2.data = (d.cleanupExpired tr).data ∧
    (d.getItem tr k).2.timestamps = (d.cleanupExpired tr).timestamps ∧
    (d.getItem tr k).2.ttl_seconds = (d.cleanupExpired tr).ttl_seconds := by
  unfold BoundedDict.getItem
  cases h : lookupKey k (d.cleanupExpired tr).data <;> simp [h]

theorem keyStamped_applyRead {k : K} {tk : ℚ} (d : BoundedDict K V) (t : ℚ)
    (op : RegistryRead K) (h : keyStamped k tk d) : keyStamped k tk (applyRead d t op) := by
  cases op with
  | getOp j =>
    have hc := keyStamped_cleanup d t h
    obtain ⟨hd, hts, _⟩ := getItem_state d t j
    intro hk
    show lookupKey k (d.getItem t j).2.timestamps = some tk
    rw [hts]
    apply hc
    have hk' : (lookupKey k (d.getItem t j).2.data).isSome = true := hk
    rw [hd] at hk'
    exact hk'
  | containsOp j => exact keyStamped_cleanup d t h
  | lenOp => exact keyStamped_cleanup d t h
  | keysOp => exact keyStamped_cleanup d t h

theorem applyRead_ttl (d : BoundedDict K V) (t : ℚ) (op : RegistryRead K) :
    (applyRead d t op).ttl_seconds = d.ttl_seconds := by
  cases op with
  | getOp j => exact (getItem_state d t j).2.2.trans (cleanupExpired_fields d t).1
  | containsOp j => exact (cleanupExpired_fields d t).1
  | lenOp => exact (cleanupExpired_fields d t).1
  | keysOp => exact (cleanupExpired_fields d t).1

theorem keyStamped_applyReads {k : K} {tk : ℚ} :
    ∀ (ops : List (RegistryRead K × ℚ)) (d : BoundedDict K V),
      keyStamped k tk d → keyStamped k tk (applyReads d ops) := by
  intro ops
  induction ops with
  | nil => intro d h; exact h
  | cons p rest ih =>
    intro d h
    exact ih _ (keyStamped_applyRead d p.2 p.1 h)

theorem applyReads_ttl :
    ∀ (ops : List (RegistryRead K × ℚ)) (d : BoundedDict K V),
      (applyReads d ops).ttl_seconds = d.ttl_seconds := by
  intro ops
  induction ops with
  | nil => intro d; rfl
  | cons p rest ih =>
    intro d
    exact (ih _).trans (applyRead_ttl d p.2 p.1)

theorem evict_oldest_fields (d : BoundedDict K V) :
    d._evict_oldest.ttl_seconds = d.ttl_seconds ∧
    d._evict_oldest.max_size = d.max_size := by
  unfold BoundedDict._evict_oldest
  cases d.access_order <;> simp

theorem evictGo_fields :
    ∀ (n : Nat) (d : BoundedDict K V),
      (BoundedDict.evictGo n d).ttl_seconds = d.ttl_seconds ∧
      (BoundedDict.evictGo n d).max_size = d.max_size := by
  intro n
  induction n with
  | zero => intro d; exact ⟨rfl, rfl⟩
  | succ m ih =>
    intro d
    unfold BoundedDict.evictGo
    by_cases hc : d.max_size ≤ d.data.length
    · simp only [hc, if_true]
      obtain ⟨h1, h2⟩ := ih d._evict_oldest
      obtain ⟨h3, h4⟩ := evict_oldest_fields d
      exact ⟨h1.trans h3, h2.trans h4⟩
    · simp [hc]

theorem setItem_fields (d : BoundedDict K V) (t : ℚ) (k : K) (v : V) :
    (d.setItem t k v).ttl_seconds = d.ttl_seconds ∧
    (d.setItem t k v).max_size = d.max_size := by
  unfold BoundedDict.setItem BoundedDict.evictWhile
  by_cases hk : hasKey k d.data <;>
    simp [hk, (evictGo_fields _ _).1, (evictGo_fields _ _).2]

theorem setItem_timestamp_self (d : BoundedDict K V) (t : ℚ) (k : K) (v : V)
    (hact : ttlActive d.ttl_seconds = true) :
    lookupKey k (d.setItem t k v).timestamps = some t := by
  unfold BoundedDict.setItem BoundedDict.evictWhile
  by_cases hk : hasKey k d.data <;>
    simp [hk, (evictGo_fields _ _).1, hact, lookupKey_insertKey_self]

theorem setItem_hasKey_self (d : BoundedDict K V) (t : ℚ) (k : K) (v : V) :
    hasKey k (d.setItem t k v).data = true := by
  unfold BoundedDict.setItem
  exact hasKey_insertKey_self k v _

/-- Core of C7/C10: a key whose stored timestamp `tk` has aged beyond the
TTL is invisible to every read operation at time `tr`. -/
theorem reads_not_observe (d : BoundedDict K V) (k : K) (tk : ℚ) (ttl : Nat) (tr : ℚ)
    (httl : d.ttl_seconds = some ttl) (hne : ttl ≠ 0)
    (hP : keyStamped k tk d) (hexp : (ttl : ℚ) < tr - tk) :
    (d.containsItem tr k).1 = false ∧ (d.getItem tr k).1 = none ∧
    k ∉ (d.keysItem tr).1 := by
  have habs : hasKey k (d.cleanupExpired tr).data = false := by
    by_cases hk : hasKey k d.data
    · exact cleanup_removes_expired tr httl hne (hP hk) hexp
    · exact cleanup_keeps_false tr (by simpa using hk)
  refine ⟨habs, ?_, ?_⟩
  · unfold BoundedDict.getItem
    simp [lookupKey_of_hasKey_false habs]
  · intro hmem
    have := hasKey_of_mem_map_fst (l := (d.cleanupExpired tr).data) hmem
    rw [habs] at this
    cases this

/-! ## Claim C7 — TTL expiry of bounded dict reads -/

/-- C7 (amended): an entry inserted at time `t` into a TTL-bounded dict is
invisible to every read operation (`get`, containment, key iteration, and
hence length) performed at any time *strictly* later than `t + ttl`; the
cleanup condition is `now - timestamp > ttl`, so at exactly `t + ttl` the
entry is still observed (see the counterexample). -/
theorem C7_ttl_expiry_strict (d : BoundedDict K V) (k : K) (v : V) (t tr : ℚ) (ttl : Nat)
    (httl : d.ttl_seconds = some ttl) (hne : ttl ≠ 0) (hexp : (ttl : ℚ) < tr - t) :
    ((d.setItem t k v).containsItem tr k).1 = false ∧
    ((d.setItem t k v).getItem tr k).1 = none ∧
    k ∉ ((d.setItem t k v).keysItem tr).1 := by
  have hact : ttlActive d.ttl_seconds = true := by simp [ttlActive, httl, hne]
  have hP : keyStamped k t (d.setItem t k v) := fun _ => setItem_timestamp_self d t k v hact
  exact reads_not_observe _ k t ttl tr ((setItem_fields d t k v).1.trans httl) hne hP hexp

def c7Dict : BoundedDict String Nat := BoundedDict.empty 5 (some 10)

/-- C7 counterexample: at exactly `t + ttl` (here 0 + 10) the entry is still
observed by a containment read, because expiry requires age strictly greater
than the TTL — the claim asserts absence at times ≥ `t + ttl`. -/
theorem C7_counterexample_boundary_still_observed :
    ((c7Dict.setItem 0 "a" 1).containsItem 10 "a").1 = true ∧
    ((c7Dict.setItem 0 "a" 1).getItem 10 "a").1 = some 1 := by
  with_unfolding_all decide

/-- C7 witness: the same entry is gone from all reads at time 11 > 0 + 10. -/
theorem C7_ttl_expiry_witness :
    ((c7Dict.setItem 0 "a" 1).containsItem 11 "a").1 = false ∧
    ((c7Dict.setItem 0 "a" 1).getItem 11 "a").1 = none ∧
    "a" ∉ ((c7Dict.setItem 0 "a" 1).keysItem 11).1 := by
  exact C7_ttl_expiry_strict c7Dict "a" 1 0 11 10 rfl (by decide) (by norm_num)

/-! ## Claim C10 — registry TTL runs from registration, not last access -/

/-- C10: the connection registry's `active_connections` is a
`BoundedDict(MAX_CONNECTIONS, ttl_seconds=3600)`, and only `__setitem__`
(i.e. `connect`) writes a timestamp.  A connection registered at time `t`
and then touched by ANY sequence of read operations — `send_personal_message`
and message handling only perform `__contains__`/`__getitem__` reads — is
absent from every registry read strictly later than `t + 3600`: inbound
activity never extends a registry entry's lifetime. -/
theorem C10_registry_ttl_from_registration {W : Type} (d : BoundedDict String W) (k : String)
    (v : W) (t : ℚ) (ops : List (RegistryRead String × ℚ)) (tr : ℚ)
    (httl : d.ttl_seconds = some registryTTL) (hlate : (registryTTL : ℚ) < tr - t) :
    (activeConnectionsInit W).ttl_seconds = some registryTTL ∧
    ((applyReads (d.setItem t k v) ops).containsItem tr k).1 = false ∧
    ((applyReads (d.setItem t k v) ops).getItem tr k).1 = none ∧
    k ∉ ((applyReads (d.setItem t k v) ops).keysItem tr).1 := by
  have hne : registryTTL ≠ 0 := by decide
  have hact : ttlActive d.ttl_seconds = true := by simp [ttlActive, httl, hne]
  have hP0 : keyStamped k t (d.setItem t k v) := fun _ => setItem_timestamp_self d t k v hact
  have hP1 := keyStamped_applyReads ops _ hP0
  have httl1 : (applyReads (d.setItem t k v) ops).ttl_seconds = some registryTTL :=
    (applyReads_ttl ops _).trans ((setItem_fields d t k v).1.trans httl)
  exact ⟨rfl, reads_not_observe _ k t registryTTL tr httl1 hne hP1 hlate⟩

/-- C10 witness: a connection registered at t=0 in a fresh registry, read
(`get`, `contains`) while "active" at t=5 and t=100, is gone at t=3601. -/
theorem C10_registry_ttl_witness :
    ((applyReads ((activeConnectionsInit Nat).setItem 0 "c1" 7)
        [(RegistryRead.getOp "c1", 5), (RegistryRead.containsOp "c1", 100)]).containsItem
      3601 "c1").1 = false := by
  exact (C10_registry_ttl_from_registration (activeConnectionsInit Nat) "c1" 7 0
    [(RegistryRead.getOp "c1", 5), (RegistryRead.containsOp "c1", 100)] 3601 rfl
    (by norm_num [registryTTL])).2.1

/-! ## Claim C6 — bounded growth under distinct-key insertion -/

/-- The last `c` elements of `l`, in order: the most recently added keys. -/
def lastN (c : Nat) (l : List α) : List α :=
  l.drop (l.length - c)

theorem lastN_length_le (c : Nat) (l : List α) : (lastN c l).length ≤ c := by
  simp only [lastN, List.length_drop]
  omega

theorem lastN_nil (c : Nat) : lastN c ([] : List α) = [] := by
  simp [lastN]

theorem lastN_nodup {c : Nat} {l : List α} (h : l.Nodup) : (lastN c l).Nodup :=
  h.sublist (List.drop_sublist _ _)

theorem mem_lastN {c : Nat} {l : List α} {x : α} (h : x ∈ lastN c l) : x ∈ l :=
  (List.drop_sublist _ _).subset h

theorem lastN_step (c : Nat) (hc : 0 < c) (l : List α) (k : α) :
    lastN c (l ++ [k]) =
      (if (lastN c l).length = c then (lastN c l).drop 1 else lastN c l) ++ [k] := by
  by_cases h : c ≤ l.length
  · have hlen : (lastN c l).length = c := by
      simp only [lastN, List.length_drop]
      omega
    rw [if_pos hlen]
    unfold lastN
    rw [List.length_append, List.length_singleton]
    have h1 : l.length + 1 - c ≤ l.length := by omega
    rw [List.drop_append_of_le_length h1, List.drop_drop]
    congr 2
    omega
  · push_neg at h
    have h0 : l.length - c = 0 := by omega
    have hll : lastN c l = l := by simp [lastN, h0]
    rw [hll, if_neg (show ¬ l.length = c by omega)]
    unfold lastN
    rw [List.length_append, List.length_singleton]
    have h2 : l.length + 1 - c = 0 := by omega
    rw [h2, List.drop_zero]

theorem eraseKey_not_hasKey {k : K} {l : List (K × V)} (h : hasKey k l = false) :
    eraseKey k l = l := by
  induction l with
  | nil => rfl
  | cons p rest ih =>
    obtain ⟨a, b⟩ := p
    by_cases hp : a = k
    · subst hp
      simp [hasKey, lookupKey] at h
    · have h' : hasKey k rest = false := by simpa [hasKey, lookupKey, hp] using h
      simp [eraseKey, hp, ih h']

theorem insertKey_of_not_hasKey {k : K} (v : V) {l : List (K × V)} (h : hasKey k l = false) :
    insertKey k v l = l ++ [(k, v)] := by
  induction l with
  | nil => rfl
  | cons p rest ih =>
    obtain ⟨a, b⟩ := p
    by_cases hp : a = k
    · subst hp
      simp [hasKey, lookupKey] at h
    · have h' : hasKey k rest = false := by simpa [hasKey, lookupKey, hp] using h
      simp [insertKey, hp, ih h']

theorem evictGo_of_lt :
    ∀ (n : Nat) (d : BoundedDict K V), d.data.length < d.max_size →
      BoundedDict.evictGo n d = d := by
  intro n d h
  cases n with
  | zero => rfl
  | succ m =>
    unfold BoundedDict.evictGo
    rw [if_neg (not_le.mpr h)]

/-- On an invariant-respecting TTL-free dict, the eviction loop either does
nothing (below capacity) or removes exactly the single oldest entry. -/
theorem evictWhile_eq_of_inv (d : BoundedDict K V) (httl : d.ttl_seconds = none)
    (hmap : d.data.map Prod.fst = d.access_order) (hnd : d.access_order.Nodup)
    (hle : d.data.length ≤ d.max_size) (hc : 0 < d.max_size) :
    d.evictWhile = if d.data.length = d.max_size
      then { d with data := d.data.drop 1, access_order := d.access_order.drop 1 }
      else d := by
  obtain ⟨ms, ttl, data, ts, ao⟩ := d
  simp only at httl hmap hnd hle hc ⊢
  subst httl
  by_cases heq : data.length = ms
  · rw [if_pos heq]
    cases data with
    | nil => simp at heq; omega
    | cons p restD =>
      obtain ⟨a, b⟩ := p
      subst hmap
      simp only [List.map_cons] at hnd ⊢
      have hnotmem : a ∉ restD.map Prod.fst := (List.nodup_cons.mp hnd).1
      have hfresh : hasKey a restD = false := by
        cases hcon : hasKey a restD with
        | false => rfl
        | true => exact absurd (mem_map_fst_of_hasKey hcon) hnotmem
      have hev : (⟨ms, none, (a, b) :: restD, ts, a :: restD.map Prod.fst⟩ :
          BoundedDict K V)._evict_oldest = ⟨ms, none, restD, ts, restD.map Prod.fst⟩ := by
        unfold BoundedDict._evict_oldest
        simp [ttlActive, eraseKey, eraseKey_not_hasKey hfresh]
      have hlt : restD.length < ms := by
        simp only [List.length_cons] at heq
        omega
      unfold BoundedDict.evictWhile
      rw [BoundedDict.evictGo]
      rw [if_pos (le_of_eq heq.symm), hev, evictGo_of_lt _ _ (by exact hlt)]
      simp
  · rw [if_neg heq]
    exact evictGo_of_lt _ _ (lt_of_le_of_ne hle heq)

/-- Insert the keys `ks` in order, each with value `f k`, at time `t`. -/
def insertSeq (d : BoundedDict K V) (t : ℚ) (f : K → V) (ks : List K) : BoundedDict K V :=
  ks.foldl (fun acc k => acc.setItem t k (f k)) d

/-- Invariant of a TTL-free capacity-`c` dict built by inserting the
distinct keys `done` in order: it holds exactly the last `c` of them. -/
def DictChain (c : Nat) (f : K → V) (done : List K) (d : BoundedDict K V) : Prop :=
  d.max_size = c ∧ d.ttl_seconds = none ∧
  d.data = (lastN c done).map (fun k => (k, f k)) ∧
  d.access_order = lastN c done ∧ d.timestamps = []

theorem DictChain_step {c : Nat} (hc : 0 < c) (f : K → V) (t : ℚ) {done : List K} {k : K}
    {d : BoundedDict K V} (hinv : DictChain c f done d) (hnodup : done.Nodup)
    (hk : k ∉ done) : DictChain c f (done ++ [k]) (d.setItem t k (f k)) := by
  obtain ⟨hm, httl, hdata, hao, hts⟩ := hinv
  have hmapfst : d.data.map Prod.fst = d.access_order := by
    rw [hdata, hao, List.map_map]
    show List.map (fun x => x) (lastN c done) = lastN c done
    simp
  have haonodup : d.access_order.Nodup := hao ▸ lastN_nodup hnodup
  have hfresh : hasKey k d.data = false := by
    cases hcon : hasKey k d.data with
    | false => rfl
    | true =>
      have := mem_map_fst_of_hasKey hcon
      rw [hmapfst, hao] at this
      exact absurd (mem_lastN this) hk
  have hle : d.data.length ≤ d.max_size := by
    rw [hdata, hm, List.length_map]
    exact lastN_length_le c done
  have hlen : d.data.length = (lastN c done).length := by
    rw [hdata, List.length_map]
  unfold BoundedDict.setItem
  rw [hfresh, if_neg (show ¬ (false = true) by simp)]
  dsimp only
  rw [evictWhile_eq_of_inv d httl hmapfst haonodup hle (hm ▸ hc)]
  by_cases heq : d.data.length = d.max_size
  · rw [if_pos heq]
    have hcond : (lastN c done).length = c := by
      rw [← hlen, heq, hm]
    have hfresh' : hasKey k (d.data.drop 1) = false := by
      cases hcon : hasKey k (d.data.drop 1) with
      | false => rfl
      | true =>
        have hmem := mem_map_fst_of_hasKey hcon
        rw [List.map_drop, hmapfst, hao] at hmem
        exact absurd (mem_lastN (List.mem_of_mem_drop hmem)) hk
    refine ⟨hm, httl, ?_, ?_, ?_⟩
    · show insertKey k (f k) (d.data.drop 1) = _
      rw [insertKey_of_not_hasKey _ hfresh', hdata, lastN_step c hc done k, if_pos hcond,
        ← hdata]
      rw [hdata, ← List.map_drop, List.map_append]
      simp
    · show d.access_order.drop 1 ++ [k] = _
      rw [lastN_step c hc done k, if_pos hcond, hao]
    · show (if ttlActive d.ttl_seconds then _ else d.timestamps) = []
      rw [httl]
      simpa [ttlActive] using hts
  · rw [if_neg heq]
    have hcond : ¬ (lastN c done).length = c := by
      rw [← hlen]
      omega
    refine ⟨hm, httl, ?_, ?_, ?_⟩
    · show insertKey k (f k) d.data = _
      rw [insertKey_of_not_hasKey _ hfresh, hdata, lastN_step c hc done k, if_neg hcond,
        List.map_append]
      simp
    · show d.access_order ++ [k] = _
      rw [lastN_step c hc done k, if_neg hcond, hao]
    · show (if ttlActive d.ttl_seconds then _ else d.timestamps) = []
      rw [httl]
      simpa [ttlActive] using hts

theorem DictChain_insertSeq (c : Nat) (hc : 0 < c) (f : K → V) (t : ℚ) :
    ∀ (ks done : List K) (d : BoundedDict K V), (done ++ ks).Nodup →
      DictChain c f done d → DictChain c f (done ++ ks) (insertSeq d t f ks) := by
  intro ks
  induction ks with
  | nil =>
    intro done d h hinv
    simpa [insertSeq] using hinv
  | cons k rest ih =>
    intro done d h hinv
    have hsplit := List.nodup_append.mp h
    have hnd_done : done.Nodup := hsplit.1
    have hk : k ∉ done := by
      intro hmem
      exact hsplit.2.2 hmem (List.mem_cons_self k rest)
    have hstep := DictChain_step hc f t hinv hnd_done hk
    have hre : done ++ k :: rest = (done ++ [k]) ++ rest := by simp
    rw [hre]
    have hnd' : ((done ++ [k]) ++ rest).Nodup := by
      rw [← hre]
      exact h
    exact ih (done ++ [k]) _ hnd' hstep

theorem filter_ne_of_not_mem {o : K} {l : List K} (h : o ∉ l) :
    l.filter (fun x => x ≠ o) = l := by
  rw [List.filter_eq_self]
  intro a ha
  have hne : a ≠ o := fun he => h (he ▸ ha)
  simpa using hne

theorem setEvictGo_of_lt :
    ∀ (n : Nat) (s : BoundedSet K), s.data.length < s.max_size →
      BoundedSet.evictGo n s = s := by
  intro n s h
  cases n with
  | zero => rfl
  | succ m =>
    unfold BoundedSet.evictGo
    rw [if_neg (not_le.mpr h)]

theorem setEvictWhile_eq_of_inv (s : BoundedSet K) (hmap : s.data = s.access_order)
    (hnd : s.data.Nodup) (hle : s.data.length ≤ s.max_size) (hc : 0 < s.max_size) :
    s.evictWhile = if s.data.length = s.max_size
      then { s with data := s.data.drop 1, access_order := s.access_order.drop 1 }
      else s := by
  obtain ⟨ms, data, ao⟩ := s
  simp only at hmap hnd hle hc ⊢
  subst hmap
  by_cases heq : data.length = ms
  · rw [if_pos heq]
    cases data with
    | nil =>
      simp only [List.length_nil] at heq
      omega
    | cons o rest =>
      have hno : o ∉ rest := (List.nodup_cons.mp hnd).1
      have hev : (⟨ms, o :: rest, o :: rest⟩ : BoundedSet K)._evict_oldest
          = ⟨ms, rest, rest⟩ := by
        unfold BoundedSet._evict_oldest
        simp
        intro a ha
        exact fun he => hno (he ▸ ha)
      have hlt : rest.length < ms := by
        simp only [List.length_cons] at heq
        omega
      unfold BoundedSet.evictWhile
      rw [BoundedSet.evictGo]
      rw [if_pos (le_of_eq heq.symm), hev, setEvictGo_of_lt _ _ (by exact hlt)]
      simp
  · rw [if_neg heq]
    exact setEvictGo_of_lt _ _ (lt_of_le_of_ne hle heq)

/-- Add the items `ks` in order. -/
def addSeq (s : BoundedSet K) (ks : List K) : BoundedSet K :=
  ks.foldl (fun acc k => acc.add k) s

/-- Invariant of a capacity-`c` bounded set built by adding the distinct
items `done` in order: it holds exactly the last `c` of them. -/
def SetChain (c : Nat) (done : List K) (s : BoundedSet K) : Prop :=
  s.max_size = c ∧ s.data = lastN c done ∧ s.access_order = lastN c done

theorem SetChain_step {c : Nat} (hc : 0 < c) {done : List K} {k : K} {s : BoundedSet K}
    (hinv : SetChain c done s) (hnodup : done.Nodup) (hk : k ∉ done) :
    SetChain c (done ++ [k]) (s.add k) := by
  obtain ⟨hm, hdata, hao⟩ := hinv
  have hnd : s.data.Nodup := hdata ▸ lastN_nodup hnodup
  have hfresh : k ∉ s.data := by
    rw [hdata]
    exact fun hmem => hk (mem_lastN hmem)
  have hle : s.data.length ≤ s.max_size := by
    rw [hdata, hm]
    exact lastN_length_le c done
  unfold BoundedSet.add
  rw [if_neg hfresh]
  dsimp only
  rw [setEvictWhile_eq_of_inv s (hdata.trans hao.symm) hnd hle (hm ▸ hc)]
  by_cases heq : s.data.length = s.max_size
  · rw [if_pos heq]
    have hcond : (lastN c done).length = c := by
      rw [← hdata, heq, hm]
    refine ⟨hm, ?_, ?_⟩
    · show s.data.drop 1 ++ [k] = _
      rw [lastN_step c hc done k, if_pos hcond, hdata]
    · show s.access_order.drop 1 ++ [k] = _
      rw [lastN_step c hc done k, if_pos hcond, hao]
  · rw [if_neg heq]
    have hcond : ¬ (lastN c done).length = c := by
      rw [← hdata]
      rw [hm] at heq
      exact heq
    refine ⟨hm, ?_, ?_⟩
    · show s.data ++ [k] = _
      rw [lastN_step c hc done k, if_neg hcond, hdata]
    · show s.access_order ++ [k] = _
      rw [lastN_step c hc done k, if_neg hcond, hao]

theorem SetChain_addSeq (c : Nat) (hc : 0 < c) :
    ∀ (ks done : List K) (s : BoundedSet K), (done ++ ks).Nodup →
      SetChain c done s → SetChain c (done ++ ks) (addSeq s ks) := by
  intro ks
  induction ks with
  | nil =>
    intro done s h hinv
    simpa [addSeq] using hinv
  | cons k rest ih =>
    intro done s h hinv
    have hsplit := List.nodup_append.mp h
    have hk : k ∉ done := by
      intro hmem
      exact hsplit.2.2 hmem (List.mem_cons_self k rest)
    have hstep := SetChain_step hc hinv hsplit.1 hk
    have hre : done ++ k :: rest = (done ++ [k]) ++ rest := by simp
    rw [hre]
    exact ih (done ++ [k]) _ (by rw [← hre]; exact h) hstep

/-- C6: inserting `N` distinct keys into a capacity-`c` bounded dict or
bounded set never lets the size exceed `c` at any prefix of the sequence,
retains exactly the `c` most recently added keys (in access order — each
eviction removes precisely the single oldest entry), and after the full
sequence the contents are exactly the last `c` keys. -/
theorem C6_bounded_growth (c : Nat) (ks : List K) (f : K → V) (t : ℚ)
    (hc : 0 < c) (hnd : ks.Nodup) :
    (∀ n, (insertSeq (BoundedDict.empty c none) t f (ks.take n)).data
          = (lastN c (ks.take n)).map (fun k => (k, f k))
        ∧ (insertSeq (BoundedDict.empty c none) t f (ks.take n)).access_order
          = lastN c (ks.take n)
        ∧ (insertSeq (BoundedDict.empty c none) t f (ks.take n)).data.length ≤ c) ∧
    (insertSeq (BoundedDict.empty c none) t f ks).data
      = (lastN c ks).map (fun k => (k, f k)) ∧
    (∀ n, (addSeq (BoundedSet.empty c) (ks.take n)).data = lastN c (ks.take n)
        ∧ (addSeq (BoundedSet.empty c) (ks.take n)).data.length ≤ c) ∧
    (addSeq (BoundedSet.empty c) ks).data = lastN c ks := by
  have hbase : DictChain c f [] (BoundedDict.empty c none) :=
    ⟨rfl, rfl, by simp [BoundedDict.empty, lastN_nil], by simp [BoundedDict.empty, lastN_nil],
     rfl⟩
  have hsbase : SetChain c ([] : List K) (BoundedSet.empty c) :=
    ⟨rfl, by simp [BoundedSet.empty, lastN_nil], by simp [BoundedSet.empty, lastN_nil]⟩
  have hdict : ∀ l : List K, l.Nodup →
      DictChain c f l (insertSeq (BoundedDict.empty c none) t f l) := by
    intro l hl
    simpa using DictChain_insertSeq c hc f t l [] _ (by simpa using hl) hbase
  have hset : ∀ l : List K, l.Nodup → SetChain c l (addSeq (BoundedSet.empty c) l) := by
    intro l hl
    simpa using SetChain_addSeq c hc l [] _ (by simpa using hl) hsbase
  refine ⟨?_, ?_, ?_, ?_⟩
  · intro n
    obtain ⟨_, _, hdata, hao, _⟩ := hdict (ks.take n) (hnd.sublist (List.take_sublist n ks))
    refine ⟨hdata, hao, ?_⟩
    rw [hdata, List.length_map]
    exact lastN_length_le c _
  · exact (hdict ks hnd).2.2.1
  · intro n
    obtain ⟨_, hdata, _⟩ := hset (ks.take n) (hnd.sublist (List.take_sublist n ks))
    refine ⟨hdata, ?_⟩
    rw [hdata]
    exact lastN_length_le c _
  · exact (hset ks hnd).2.1

/-- C6 witness: three distinct keys into capacity-2 containers retain
exactly the last two. -/
theorem C6_bounded_growth_witness :
    (0 < 2 ∧ (["a", "b", "c"] : List String).Nodup) ∧
    (insertSeq (BoundedDict.empty 2 none : BoundedDict String Nat) 0 (fun _ => 7)
      ["a", "b", "c"]).data = [("b", 7), ("c", 7)] ∧
    (addSeq (BoundedSet.empty 2 : BoundedSet String) ["a", "b", "c"]).data = ["b", "c"] := by
  refine ⟨⟨by decide, by decide⟩, ?_, ?_⟩
  · rw [(C6_bounded_growth 2 ["a", "b", "c"] (fun _ => (7 : Nat)) 0 (by decide)
      (by decide)).2.1]
    decide
  · rw [(C6_bounded_growth 2 ["a", "b", "c"] (fun _ => (7 : Nat)) 0 (by decide)
      (by decide)).2.2.2]
    decide

end PW
